import Mathlib

/-!
# Verification of the tinygrad GPU backend (`ops_gpu.py`)

Shallow embedding of the host-side shape algebra and the device kernels'
index arithmetic of `src/tinygrad/ops_gpu.py`, together with proofs of the
specification's claims about them.

Tensor shapes are `List Nat` (row-major, most-significant dimension first);
device buffers are modelled as flat functions `Nat → Int` (the kernels only
do index arithmetic and ring operations on the stored values, so the exact
scalar type is irrelevant to the claims; `Int` keeps everything executable).
-/

namespace TinygradGPU

/-- Product of a list of dimension sizes (`np.prod`). -/
def listProd : List Nat → Nat
  | [] => 1
  | s :: rest => s * listProd rest

/-- Mixed-radix digits of a flat index `gid`, most-significant dimension
first: digit for dimension `i` is `(gid / prod(radices after i)) % radix_i`. -/
def digitsMS : List Nat → Nat → List Nat
  | [], _ => []
  | s :: rest, gid => (gid / listProd rest) % s :: digitsMS rest gid

/-- Flatten mixed-radix digits back to a flat index, starting from an
accumulator `acc` (Horner scheme `acc := acc * radix + digit`). -/
def flattenAcc (acc : Nat) : List Nat → List Nat → Nat
  | s :: radices, d :: digits => flattenAcc (acc * s + d) radices digits
  | _, _ => acc

/-- Flat row-major index of a multi-index. -/
def flattenMS (radices digits : List Nat) : Nat :=
  flattenAcc 0 radices digits

/-! ## binary_op host-side shape algebra (ops_gpu.py lines 83-91)

```python
n_dims = max(len(x.shape), len(y.shape))
shape_x, shape_y = np.ones(n_dims, ...), np.ones(n_dims, ...)
shape_x[:len(x.shape)] = np.array(x.shape, ...)
shape_y[:len(y.shape)] = np.array(y.shape, ...)
if not np.all((shape_x == 1) | (shape_y == 1) | (shape_x == shape_y)):
  raise Exception(...)
shape_ret = np.maximum(shape_x, shape_y)
```

Note the slice assignment `shape_x[:len(x.shape)] = x.shape` puts the
existing dimensions first and leaves the *trailing* entries as 1: the two
shapes are aligned at the front (left-aligned). -/

/-- `shape_x[:len(s)] = s` into `np.ones(n)`: the shape is extended with
trailing 1s up to rank `n`. -/
def padTrailingOnes (n : Nat) (s : List Nat) : List Nat :=
  s ++ List.replicate (n - s.length) 1

/-- The elementwise broadcast-compatibility test
`np.all((shape_x == 1) | (shape_y == 1) | (shape_x == shape_y))`
on two already rank-aligned shapes. -/
def broadcastCompatible (sx sy : List Nat) : Bool :=
  (List.zip sx sy).all fun p => p.1 == 1 || p.2 == 1 || p.1 == p.2

/-- Host-side shape computation of `binary_op`: rank-align the two shapes
(trailing 1s), check compatibility, return `np.maximum(shape_x, shape_y)`. -/
def binaryOpShape (xs ys : List Nat) : Except String (List Nat) :=
  let n := max xs.length ys.length
  let sx := padTrailingOnes n xs
  let sy := padTrailingOnes n ys
  if broadcastCompatible sx sy then
    Except.ok (List.zipWith max sx sy)
  else
    Except.error "binary op unbroadcastable shape mismatch"

/-- The broadcast rule exactly as claim C1 words it: pad the *shorter* shape
with *leading* 1s (right-aligned, NumPy convention), then check and take the
per-dimension max.  This is the claim's reading, kept for comparison with
`binaryOpShape`, which embeds the code. -/
def binaryOpShapeClaimC1 (xs ys : List Nat) : Except String (List Nat) :=
  let n := max xs.length ys.length
  let sx := List.replicate (n - xs.length) 1 ++ xs
  let sy := List.replicate (n - ys.length) 1 ++ ys
  if broadcastCompatible sx sy then
    Except.ok (List.zipWith max sx sy)
  else
    Except.error "binary op unbroadcastable shape mismatch"

/-- The amended broadcast rule, stated structurally: shapes are aligned at
the *front*; a missing trailing dimension is treated as size 1 (so a shape
that runs out is compatible with anything and contributes 1 to the max);
for each aligned dimension the sizes must match or one must be 1, and the
output dimension is their max. -/
def broadcastAmended : List Nat → List Nat → Option (List Nat)
  | [], ys => some ys
  | x :: xs, [] => some (x :: xs)
  | x :: xs, y :: ys =>
    if x = y ∨ x = 1 ∨ y = 1 then
      (broadcastAmended xs ys).map (max x y :: ·)
    else
      none

/-! ## binary_op kernel index mapping (ops_gpu.py lines 93-110)

General path of the `binop` kernel, translated dimension by dimension:

```c
int idx_a = 0, idx_b = 0;
for (int dim = 0; dim < n_dims; dim++) {
  prod /= shape_ret[dim];
  int idx_ret = (gid / prod) % shape_ret[dim];
  idx_a = (idx_a * shape_x[dim]) + (idx_ret % shape_x[dim]);
  idx_b = (idx_b * shape_y[dim]) + (idx_ret % shape_y[dim]);
}
```

`binopIdxGo` runs the loop for one operand over the zipped
(operand dim, output dim) list, threading `prod` and the accumulator. -/

/-- One operand's index-accumulation loop of the `binop` kernel.
The pair components are `(shape_op[dim], shape_ret[dim])`. -/
def binopIdxGo : List (Nat × Nat) → Nat → Nat → Nat → Nat
  | [], _, _, idx => idx
  | (sOp, sRet) :: dims, p, gid, idx =>
    let p' := p / sRet
    let idxRet := (gid / p') % sRet
    binopIdxGo dims p' gid (idx * sOp + idxRet % sOp)

/-- Flat operand index computed by the `binop` kernel's general path for
output index `gid`; `prod` starts at `shape_ret.prod()` as dispatched by
the host (line 112-113). -/
def broadcastIdx (shapeOp shapeRet : List Nat) (gid : Nat) : Nat :=
  binopIdxGo (List.zip shapeOp shapeRet) (listProd shapeRet) gid 0

/-- Output cell computed by the general path of the `binop` kernel:
`res_g[gid] = code(a_g[idx_a], b_g[idx_b])` with both indices from the
per-dimension loop. -/
def binopGeneralCell (code : Int → Int → Int) (a b : Nat → Int)
    (shapeX shapeY shapeRet : List Nat) (gid : Nat) : Int :=
  code (a (broadcastIdx shapeX shapeRet gid)) (b (broadcastIdx shapeY shapeRet gid))

/-- Output cell computed by the specialized equal-shape path
(`int idx_a = gid, idx_b = gid;`). -/
def binopFastCell (code : Int → Int → Int) (a b : Nat → Int) (gid : Nat) : Int :=
  code (a gid) (b gid)

/-- Per-operand digits as the spec describes them: the output digit where
the operand has the full dimension, `0` where the operand's size is 1. -/
def maskedDigits (shapeOp : List Nat) (outDigits : List Nat) : List Nat :=
  List.zipWith (fun s d => if s = 1 then 0 else d) shapeOp outDigits

theorem listProd_pos {s : List Nat} (h : ∀ d ∈ s, 0 < d) : 0 < listProd s := by
  induction s with
  | nil => simp [listProd]
  | cons x xs ih =>
    simp only [listProd]
    exact Nat.mul_pos (h x (by simp)) (ih fun d hd => h d (List.mem_cons_of_mem _ hd))

/-- The kernel's per-operand loop computes the Horner flattening of the
masked output digits, for any starting accumulator. -/
theorem binopIdxGo_eq_flattenAcc (pairs : List (Nat × Nat))
    (hpos : ∀ p ∈ pairs, 0 < p.2)
    (hcompat : ∀ p ∈ pairs, p.1 = p.2 ∨ p.1 = 1)
    (gid idx : Nat) :
    binopIdxGo pairs (listProd (pairs.map Prod.snd)) gid idx
      = flattenAcc idx (pairs.map Prod.fst)
          (maskedDigits (pairs.map Prod.fst) (digitsMS (pairs.map Prod.snd) gid)) := by
  induction pairs generalizing idx with
  | nil => simp [binopIdxGo, flattenAcc]
  | cons p rest ih =>
    obtain ⟨sOp, sRet⟩ := p
    have hsr : 0 < sRet := hpos (sOp, sRet) (by simp)
    have hdiv : sRet * listProd (rest.map Prod.snd) / sRet = listProd (rest.map Prod.snd) :=
      Nat.mul_div_cancel_left _ hsr
    have hd : (gid / listProd (rest.map Prod.snd)) % sRet % sOp
        = if sOp = 1 then 0 else (gid / listProd (rest.map Prod.snd)) % sRet := by
      rcases hcompat (sOp, sRet) (by simp) with h | h
      · simp only at h
        subst h
        by_cases h1 : sOp = 1
        · simp [h1, Nat.mod_one]
        · rw [if_neg h1]
          exact Nat.mod_mod_of_dvd _ dvd_rfl
      · simp only at h
        simp [h, Nat.mod_one]
    simp only [List.map_cons, listProd, digitsMS, maskedDigits, List.zipWith_cons_cons,
      binopIdxGo, hdiv, flattenAcc]
    rw [ih (fun q hq => hpos q (List.mem_cons_of_mem _ hq))
        (fun q hq => hcompat q (List.mem_cons_of_mem _ hq))]
    simp only [maskedDigits]
    congr 1
    rw [hd]

/-- Horner-flattening the mixed-radix digits of `g` yields `g` modulo the
total size, shifted by the accumulator. -/
theorem flattenAcc_digitsMS (s : List Nat) (a g : Nat) :
    flattenAcc a s (digitsMS s g) = a * listProd s + g % listProd s := by
  induction s generalizing a with
  | nil => simp [flattenAcc, digitsMS, listProd, Nat.mod_one]
  | cons x rest ih =>
    simp only [digitsMS, flattenAcc, listProd]
    rw [ih]
    have h : g % (x * listProd rest)
        = g % listProd rest + listProd rest * (g / listProd rest % x) := by
      rw [Nat.mul_comm x (listProd rest)]
      exact Nat.mod_mul
    rw [h]
    ring

/-- The general-path operand index is the row-major flattening of the
masked output digits. -/
theorem broadcastIdx_eq_masked (shapeOp shapeRet : List Nat) (gid : Nat)
    (hl : shapeOp.length = shapeRet.length)
    (hpos : ∀ d ∈ shapeRet, 0 < d)
    (hc : ∀ p ∈ List.zip shapeOp shapeRet, p.1 = p.2 ∨ p.1 = 1) :
    broadcastIdx shapeOp shapeRet gid
      = flattenMS shapeOp (maskedDigits shapeOp (digitsMS shapeRet gid)) := by
  have hfst : (List.zip shapeOp shapeRet).map Prod.fst = shapeOp :=
    List.map_fst_zip _ _ (le_of_eq hl)
  have hsnd : (List.zip shapeOp shapeRet).map Prod.snd = shapeRet :=
    List.map_snd_zip _ _ (le_of_eq hl.symm)
  have := binopIdxGo_eq_flattenAcc (List.zip shapeOp shapeRet)
    (fun p hp => hpos p.2 (List.of_mem_zip hp).2) hc gid 0
  rw [hfst, hsnd] at this
  simpa [broadcastIdx, flattenMS] using this

/-- At a dimension of size 1 the output digit is already 0, so masking is
the identity on a shape's own digits. -/
theorem maskedDigits_self (s : List Nat) (g : Nat) :
    maskedDigits s (digitsMS s g) = digitsMS s g := by
  induction s with
  | nil => rfl
  | cons x rest ih =>
    simp only [digitsMS, maskedDigits, List.zipWith_cons_cons]
    have h1 : (if x = 1 then 0 else g / listProd rest % x) = g / listProd rest % x := by
      by_cases h : x = 1
      · simp [h, Nat.mod_one]
      · simp [h]
    simp only [maskedDigits] at ih
    rw [h1, ih]

/-! ## Host-side events of binary_op (for error-before-dispatch claims)

`binary_op` raises the shape-mismatch exception (line 88-89) before
`buffer_new` (line 91) and before the kernel dispatch (line 113); the trace
records, in program order, which of those effects happen. -/

/-- A host-side effect: allocating an output buffer of a given shape, or
dispatching a named kernel. -/
inductive Event where
  | alloc : List Nat → Event
  | dispatch : String → Event
  deriving DecidableEq

/-- `binary_op`'s host control flow: check, then allocate, then dispatch. -/
def binaryOpTrace (xs ys : List Nat) : List Event × Except String (List Nat) :=
  let n := max xs.length ys.length
  let sx := padTrailingOnes n xs
  let sy := padTrailingOnes n ys
  if broadcastCompatible sx sy then
    let shapeRet := List.zipWith max sx sy
    ([Event.alloc shapeRet, Event.dispatch "binop"], Except.ok shapeRet)
  else
    ([], Except.error "binary op unbroadcastable shape mismatch")

theorem zip_self_fst_eq_snd {l : List Nat} : ∀ p ∈ List.zip l l, p.1 = p.2 := by
  induction l with
  | nil => intro p hp; simp at hp
  | cons x xs ih =>
    intro p hp
    rw [List.zip_cons_cons, List.mem_cons] at hp
    rcases hp with h | h
    · rw [h]
    · exact ih p h

theorem compat_ones_left (ys : List Nat) :
    broadcastCompatible (List.replicate ys.length 1) ys = true := by
  induction ys with
  | nil => rfl
  | cons y ys ih => simpa [broadcastCompatible, List.replicate] using ih

theorem compat_ones_right (xs : List Nat) :
    broadcastCompatible xs (List.replicate xs.length 1) = true := by
  induction xs with
  | nil => rfl
  | cons x xs ih => simpa [broadcastCompatible, List.replicate] using ih

theorem zipWith_max_ones_left (ys : List Nat) (hy : ∀ d ∈ ys, 0 < d) :
    List.zipWith max (List.replicate ys.length 1) ys = ys := by
  induction ys with
  | nil => rfl
  | cons y ys ih =>
    simp only [List.length_cons, List.replicate, List.zipWith_cons_cons]
    rw [Nat.max_eq_right (hy y (by simp)), ih fun d hd => hy d (List.mem_cons_of_mem _ hd)]

theorem zipWith_max_ones_right (xs : List Nat) (hx : ∀ d ∈ xs, 0 < d) :
    List.zipWith max xs (List.replicate xs.length 1) = xs := by
  induction xs with
  | nil => rfl
  | cons x xs ih =>
    simp only [List.length_cons, List.replicate, List.zipWith_cons_cons]
    rw [Nat.max_eq_left (hx x (by simp)), ih fun d hd => hx d (List.mem_cons_of_mem _ hd)]

theorem padTrailingOnes_cons (n : Nat) (x : Nat) (xs : List Nat) :
    padTrailingOnes (n + 1) (x :: xs) = x :: padTrailingOnes n xs := by
  simp [padTrailingOnes, List.cons_append]

theorem binaryOpShape_nil_left (ys : List Nat) (hy : ∀ d ∈ ys, 0 < d) :
    binaryOpShape [] ys = Except.ok ys := by
  have e1 : padTrailingOnes (max ([] : List Nat).length ys.length) ([] : List Nat)
      = List.replicate ys.length 1 := by
    simp [padTrailingOnes]
  have e2 : padTrailingOnes (max ([] : List Nat).length ys.length) ys = ys := by
    simp [padTrailingOnes]
  simp only [binaryOpShape, e1, e2]
  rw [if_pos (compat_ones_left ys), zipWith_max_ones_left ys hy]

theorem binaryOpShape_nil_right (xs : List Nat) (hx : ∀ d ∈ xs, 0 < d) :
    binaryOpShape xs [] = Except.ok xs := by
  have e1 : padTrailingOnes (max xs.length ([] : List Nat).length) xs = xs := by
    simp [padTrailingOnes]
  have e2 : padTrailingOnes (max xs.length ([] : List Nat).length) ([] : List Nat)
      = List.replicate xs.length 1 := by
    simp [padTrailingOnes]
  simp only [binaryOpShape, e1, e2]
  rw [if_pos (compat_ones_right xs), zipWith_max_ones_right xs hx]

/-- Unfolding `binaryOpShape` one aligned dimension at a time. -/
theorem binaryOpShape_cons_cons (x y : Nat) (xs ys : List Nat) :
    binaryOpShape (x :: xs) (y :: ys)
      = if x = 1 ∨ y = 1 ∨ x = y then
          (binaryOpShape xs ys).map (max x y :: ·)
        else Except.error "binary op unbroadcastable shape mismatch" := by
  have hlen : max (x :: xs).length (y :: ys).length = max xs.length ys.length + 1 := by
    simp [Nat.succ_max_succ]
  simp only [binaryOpShape, hlen, padTrailingOnes_cons, broadcastCompatible,
    List.zip_cons_cons, List.all_cons, List.zipWith_cons_cons]
  by_cases hhead : x = 1 ∨ y = 1 ∨ x = y
  · have hb : (x == 1 || y == 1 || x == y) = true := by
      simp only [Bool.or_eq_true, beq_iff_eq]
      tauto
    rw [if_pos hhead]
    simp only [hb, Bool.true_and]
    by_cases hc : (List.zip (padTrailingOnes (max xs.length ys.length) xs)
        (padTrailingOnes (max xs.length ys.length) ys)).all
        (fun p => p.1 == 1 || p.2 == 1 || p.1 == p.2) = true
    · rw [if_pos hc, if_pos hc]
      rfl
    · rw [if_neg hc, if_neg hc]
      rfl
  · have hb : (x == 1 || y == 1 || x == y) = false := by
      simp only [Bool.or_eq_false_iff, beq_eq_false_iff_ne, ne_eq]
      tauto
    rw [if_neg hhead]
    simp only [hb, Bool.false_and]
    rw [if_neg (by simp)]

/-- `binaryOpShape` agrees with the structural left-aligned broadcast rule
on shapes with positive dimensions. -/
theorem binaryOpShape_eq_amended (xs : List Nat) :
    ∀ ys : List Nat, (∀ d ∈ xs, 0 < d) → (∀ d ∈ ys, 0 < d) →
    (binaryOpShape xs ys).toOption = broadcastAmended xs ys := by
  induction xs with
  | nil =>
    intro ys _ hy
    rw [binaryOpShape_nil_left ys hy]
    rfl
  | cons x xs ih =>
    intro ys hx hy
    cases ys with
    | nil =>
      rw [binaryOpShape_nil_right (x :: xs) hx]
      rfl
    | cons y ys =>
      have hx' : ∀ d ∈ xs, 0 < d := fun d hd => hx d (List.mem_cons_of_mem _ hd)
      have hy' : ∀ d ∈ ys, 0 < d := fun d hd => hy d (List.mem_cons_of_mem _ hd)
      rw [binaryOpShape_cons_cons]
      by_cases hprop : x = 1 ∨ y = 1 ∨ x = y
      · rw [if_pos hprop]
        simp only [broadcastAmended]
        rw [if_pos (by tauto)]
        rw [← ih ys hx' hy']
        cases binaryOpShape xs ys <;> rfl
      · rw [if_neg hprop]
        simp only [broadcastAmended]
        rw [if_neg (by tauto)]
        rfl

/-! ## Claim theorems: shape algebra and binop index mapping -/

/-- C1 counterexample: for `x.shape = (3,)` and `y.shape = (3,4)` the code's
`binary_op` pads the shorter shape with *trailing* 1s (giving `(3,1)` vs
`(3,4)`) and succeeds with output `(3,4)`, while the claim's right-aligned
rule (pad with *leading* 1s, giving `(1,3)` vs `(3,4)`) fails the
per-dimension compatibility check, so the claim as stated is false. -/
theorem binary_op_padding_claim_counterexample :
    binaryOpShape [3] [3, 4] = Except.ok [3, 4]
      ∧ binaryOpShapeClaimC1 [3] [3, 4]
          = Except.error "binary op unbroadcastable shape mismatch" := by
  exact ⟨rfl, rfl⟩

/-- C1 (amended): for every pair of input shapes (all dimensions positive),
`binary_op` pads the shorter shape with *trailing* 1s to the common rank
(the two shapes are left-aligned, missing trailing dimensions treated as
size 1) before the per-dimension compatibility check, and every output
dimension equals the max of the two padded sizes: `binaryOpShape` coincides
with the structural left-aligned broadcast rule `broadcastAmended`. -/
theorem binary_op_broadcast_left_aligned (xs ys : List Nat)
    (hx : ∀ d ∈ xs, 0 < d) (hy : ∀ d ∈ ys, 0 < d) :
    (binaryOpShape xs ys).toOption = broadcastAmended xs ys :=
  binaryOpShape_eq_amended xs ys hx hy

theorem binary_op_broadcast_left_aligned_witness :
    (∀ d ∈ [2, 1, 3], 0 < d) ∧ (∀ d ∈ [2, 5], 0 < d)
      ∧ (binaryOpShape [2, 1, 3] [2, 5]).toOption = broadcastAmended [2, 1, 3] [2, 5] :=
  ⟨by decide, by decide,
    binary_op_broadcast_left_aligned [2, 1, 3] [2, 5] (by decide) (by decide)⟩

/-- C2: for every broadcast-compatible pair of operand shapes (positive
dimensions, rank-aligned) and every flat output index `gid`, the `binop`
kernel's per-dimension accumulation `idx = idx*operand_dim + (idx_ret %
operand_dim)` computes the row-major flattening of the per-dimension output
components, where the component is kept exactly when the operand's size
equals the output's size and becomes 0 when the operand's size is 1
(`maskedDigits`); the same formula holds for both operands of `binary_op`. -/
theorem binary_op_index_mapping (code : Int → Int → Int) (a b : Nat → Int)
    (shapeX shapeY shapeRet : List Nat) (gid : Nat)
    (hlx : shapeX.length = shapeRet.length) (hly : shapeY.length = shapeRet.length)
    (hpos : ∀ d ∈ shapeRet, 0 < d)
    (hcx : ∀ p ∈ List.zip shapeX shapeRet, p.1 = p.2 ∨ p.1 = 1)
    (hcy : ∀ p ∈ List.zip shapeY shapeRet, p.1 = p.2 ∨ p.1 = 1) :
    broadcastIdx shapeX shapeRet gid
        = flattenMS shapeX (maskedDigits shapeX (digitsMS shapeRet gid))
      ∧ broadcastIdx shapeY shapeRet gid
        = flattenMS shapeY (maskedDigits shapeY (digitsMS shapeRet gid))
      ∧ binopGeneralCell code a b shapeX shapeY shapeRet gid
        = code (a (flattenMS shapeX (maskedDigits shapeX (digitsMS shapeRet gid))))
               (b (flattenMS shapeY (maskedDigits shapeY (digitsMS shapeRet gid)))) := by
  have h1 := broadcastIdx_eq_masked shapeX shapeRet gid hlx hpos hcx
  have h2 := broadcastIdx_eq_masked shapeY shapeRet gid hly hpos hcy
  refine ⟨h1, h2, ?_⟩
  rw [binopGeneralCell, h1, h2]

theorem binary_op_index_mapping_witness :
    broadcastIdx [3, 1] [3, 4] 7
        = flattenMS [3, 1] (maskedDigits [3, 1] (digitsMS [3, 4] 7))
      ∧ broadcastIdx [1, 4] [3, 4] 7
        = flattenMS [1, 4] (maskedDigits [1, 4] (digitsMS [3, 4] 7))
      ∧ binopGeneralCell (fun u v => u * v) (fun n => (n : Int)) (fun n => (n : Int))
          [3, 1] [1, 4] [3, 4] 7
        = (fun u v => u * v)
            ((fun n => (n : Int)) (flattenMS [3, 1] (maskedDigits [3, 1] (digitsMS [3, 4] 7))))
            ((fun n => (n : Int)) (flattenMS [1, 4] (maskedDigits [1, 4] (digitsMS [3, 4] 7)))) :=
  binary_op_index_mapping (fun u v => u * v) (fun n => (n : Int)) (fun n => (n : Int))
    [3, 1] [1, 4] [3, 4] 7 rfl rfl (by decide) (by decide) (by decide)

/-- C3: whenever some rank-aligned dimension has two unequal sizes neither
of which is 1, `binary_op` fails with the shape-mismatch error and its
host trace is empty (no buffer allocated, no kernel dispatched); for every
compatible pair it allocates, dispatches, and returns the per-dimension
maximum as the output shape. -/
theorem binary_op_mismatch_before_dispatch (xs ys : List Nat) :
    ((∃ p ∈ List.zip (padTrailingOnes (max xs.length ys.length) xs)
                     (padTrailingOnes (max xs.length ys.length) ys),
        p.1 ≠ p.2 ∧ p.1 ≠ 1 ∧ p.2 ≠ 1) →
      binaryOpTrace xs ys = ([], Except.error "binary op unbroadcastable shape mismatch"))
    ∧ ((∀ p ∈ List.zip (padTrailingOnes (max xs.length ys.length) xs)
                       (padTrailingOnes (max xs.length ys.length) ys),
          p.1 = 1 ∨ p.2 = 1 ∨ p.1 = p.2) →
      binaryOpTrace xs ys
        = ([Event.alloc (List.zipWith max (padTrailingOnes (max xs.length ys.length) xs)
                          (padTrailingOnes (max xs.length ys.length) ys)),
            Event.dispatch "binop"],
           Except.ok (List.zipWith max (padTrailingOnes (max xs.length ys.length) xs)
                          (padTrailingOnes (max xs.length ys.length) ys)))) := by
  constructor
  · rintro ⟨p, hp, hne, h1, h2⟩
    have hcf : ¬ broadcastCompatible (padTrailingOnes (max xs.length ys.length) xs)
        (padTrailingOnes (max xs.length ys.length) ys) = true := by
      simp only [broadcastCompatible, List.all_eq_true]
      intro hall
      have hpv := hall p hp
      simp only [Bool.or_eq_true, beq_iff_eq] at hpv
      tauto
    simp only [binaryOpTrace]
    rw [if_neg hcf]
  · intro hall
    have hct : broadcastCompatible (padTrailingOnes (max xs.length ys.length) xs)
        (padTrailingOnes (max xs.length ys.length) ys) = true := by
      simp only [broadcastCompatible, List.all_eq_true]
      intro p hp
      simp only [Bool.or_eq_true, beq_iff_eq]
      have h := hall p hp
      tauto
    simp only [binaryOpTrace]
    rw [if_pos hct]

theorem binary_op_mismatch_before_dispatch_witness :
    binaryOpTrace [2, 3] [4] = ([], Except.error "binary op unbroadcastable shape mismatch")
      ∧ binaryOpTrace [2, 3] [2, 3]
        = ([Event.alloc [2, 3], Event.dispatch "binop"], Except.ok [2, 3]) :=
  ⟨(binary_op_mismatch_before_dispatch [2, 3] [4]).1
      ⟨(2, 4), by decide, by decide, by decide, by decide⟩,
    by
      have h := (binary_op_mismatch_before_dispatch [2, 3] [2, 3]).2 (by decide)
      simpa using h⟩

/-- C10: on equal operand shapes the `binop` kernel's general per-dimension
index-mapping loop computes `idx_a = idx_b = gid` for every in-range flat
output index, so the specialized fast path (`int idx_a = gid, idx_b = gid`)
and the general path produce identical results. -/
theorem binop_fast_path_refines_general (code : Int → Int → Int) (a b : Nat → Int)
    (shape : List Nat) (gid : Nat)
    (hpos : ∀ d ∈ shape, 0 < d) (hgid : gid < listProd shape) :
    binopGeneralCell code a b shape shape shape gid = binopFastCell code a b gid := by
  have h := broadcastIdx_eq_masked shape shape gid rfl hpos
    (fun p hp => Or.inl (zip_self_fst_eq_snd p hp))
  rw [maskedDigits_self, flattenMS, flattenAcc_digitsMS, Nat.zero_mul, Nat.zero_add,
    Nat.mod_eq_of_lt hgid] at h
  rw [binopGeneralCell, binopFastCell, h]

theorem binop_fast_path_refines_general_witness :
    binopGeneralCell (fun u v => u + v) (fun n => (n : Int)) (fun n => 2 * (n : Int))
        [2, 3] [2, 3] [2, 3] 4
      = binopFastCell (fun u v => u + v) (fun n => (n : Int)) (fun n => 2 * (n : Int)) 4 :=
  binop_fast_path_refines_general (fun u v => u + v) (fun n => (n : Int))
    (fun n => 2 * (n : Int)) [2, 3] 4 (by decide) (by decide)

/-! ## Reshape (ops_gpu.py lines 349-363)

```python
shape = tuple(-np.prod(x.shape) // np.prod(shape) if s == -1 else s for s in shape)
r = GPUBuffer(shape, hostbuf=x)
assert np.prod(x.shape) == np.prod(r.shape)
```

`GPUBuffer(shape, hostbuf=x)` reuses `x`'s storage, modelled here by
carrying the `data` field through unchanged.  `//` is Python floor
division, i.e. `Int.fdiv`. -/

/-- A device buffer as the host sees it: a logical shape (as signed sizes,
since reshape targets may contain `-1`) plus the flat stored data. -/
structure GPUBufferM where
  shape : List Int
  data : List Int
  deriving DecidableEq

/-- `np.prod` over signed sizes; the empty product is 1. -/
def intProd : List Int → Int
  | [] => 1
  | s :: rest => s * intProd rest

/-- The generator expression of `Reshape.forward`: replace each `-1` by
`-np.prod(x.shape) // np.prod(shape)` (note: `np.prod(shape)` is the
product over the *original* target shape, `-1` entries included). -/
def resolveShape (x : GPUBufferM) (shape : List Int) : List Int :=
  shape.map fun s =>
    if s = -1 then Int.fdiv (-(intProd x.shape)) (intProd shape) else s

/-- `Reshape.forward`: resolve `-1`s, alias the input's storage, and assert
element-count preservation. -/
def reshapeForward (x : GPUBufferM) (shape : List Int) : Except String GPUBufferM :=
  if intProd x.shape = intProd (resolveShape x shape) then
    Except.ok ⟨resolveShape x shape, x.data⟩
  else
    Except.error "AssertionError"

theorem intProd_append (a b : List Int) : intProd (a ++ b) = intProd a * intProd b := by
  induction a with
  | nil => simp [intProd]
  | cons x rest ih => simp [intProd, ih, mul_assoc]

theorem intProd_pos {l : List Int} (h : ∀ d ∈ l, 0 < d) : 0 < intProd l := by
  induction l with
  | nil => exact Int.one_pos
  | cons x rest ih =>
    exact mul_pos (h x (by simp)) (ih fun d hd => h d (List.mem_cons_of_mem _ hd))

theorem list_map_id_of_mem {α : Type} (f : α → α) (l : List α)
    (h : ∀ a ∈ l, f a = a) : l.map f = l := by
  induction l with
  | nil => rfl
  | cons a rest ih =>
    rw [List.map_cons, h a (by simp), ih fun b hb => h b (List.mem_cons_of_mem _ hb)]

theorem resolveShape_of_nonneg (x : GPUBufferM) (s : List Int)
    (h : ∀ d ∈ s, 0 ≤ d) : resolveShape x s = s := by
  refine list_map_id_of_mem _ s fun a ha => ?_
  have : a ≠ -1 := by
    have := h a ha
    omega
  simp [this]

/-- C7: reshape round-trips (`reshape(reshape(x, s2), s1) == x` whenever s1
is x's shape and s2 has the same total element count), requires exact
element-count preservation (a count mismatch after `-1`-resolution is an
error), and a single `-1` placeholder is inferred as
`total_elements / product(other_dims)` (the factor `k` below). -/
theorem reshape_contract :
    (∀ (x : GPUBufferM) (s2 : List Int),
        (∀ d ∈ x.shape, 0 ≤ d) → (∀ d ∈ s2, 0 ≤ d) →
        intProd s2 = intProd x.shape →
        reshapeForward x s2 = Except.ok ⟨s2, x.data⟩
          ∧ reshapeForward ⟨s2, x.data⟩ x.shape = Except.ok x)
    ∧ (∀ (x : GPUBufferM) (s : List Int),
        intProd (resolveShape x s) ≠ intProd x.shape →
        reshapeForward x s = Except.error "AssertionError")
    ∧ (∀ (x : GPUBufferM) (s1 s2 : List Int),
        (∀ d ∈ s1, 0 < d) → (∀ d ∈ s2, 0 < d) →
        (intProd s1 * intProd s2) ∣ intProd x.shape →
        ∃ k, intProd x.shape = (intProd s1 * intProd s2) * k
          ∧ reshapeForward x (s1 ++ -1 :: s2) = Except.ok ⟨s1 ++ k :: s2, x.data⟩) := by
  refine ⟨?_, ?_, ?_⟩
  · intro x s2 hx hs2 hp
    have r2 : resolveShape x s2 = s2 := resolveShape_of_nonneg x s2 hs2
    have r1 : resolveShape ⟨s2, x.data⟩ x.shape = x.shape :=
      resolveShape_of_nonneg _ x.shape hx
    constructor
    · rw [reshapeForward, r2, if_pos hp.symm]
    · rw [reshapeForward, r1, if_pos hp]
  · intro x s hne
    rw [reshapeForward, if_neg fun h => hne h.symm]
  · intro x s1 s2 h1 h2 hdvd
    obtain ⟨k, hk⟩ := hdvd
    refine ⟨k, hk, ?_⟩
    have hP1 : 0 < intProd s1 := intProd_pos h1
    have hP2 : 0 < intProd s2 := intProd_pos h2
    have hprodS : intProd (s1 ++ -1 :: s2) = -(intProd s1 * intProd s2) := by
      rw [intProd_append, intProd]
      ring
    have hres : resolveShape x (s1 ++ -1 :: s2) = s1 ++ k :: s2 := by
      rw [resolveShape, List.map_append, List.map_cons]
      have e1 : (s1.map fun s =>
          if s = -1 then Int.fdiv (-(intProd x.shape)) (intProd (s1 ++ -1 :: s2)) else s) = s1 :=
        list_map_id_of_mem _ s1 fun a ha => by
          have : a ≠ -1 := by
            have := h1 a ha
            omega
          simp [this]
      have e2 : (s2.map fun s =>
          if s = -1 then Int.fdiv (-(intProd x.shape)) (intProd (s1 ++ -1 :: s2)) else s) = s2 :=
        list_map_id_of_mem _ s2 fun a ha => by
          have : a ≠ -1 := by
            have := h2 a ha
            omega
          simp [this]
      have e3 : Int.fdiv (-(intProd x.shape)) (intProd (s1 ++ -1 :: s2)) = k := by
        rw [hprodS, hk]
        have : -(intProd s1 * intProd s2 * k) = -(intProd s1 * intProd s2) * k := by ring
        rw [this]
        exact Int.mul_fdiv_cancel_left k (neg_ne_zero.mpr (ne_of_gt (mul_pos hP1 hP2)))
      rw [e1, e2, e3]
      simp
    rw [reshapeForward, hres, if_pos]
    rw [hk, intProd_append, intProd]
    ring

theorem reshape_contract_witness :
    reshapeForward ⟨[2, 3], [1, 2, 3, 4, 5, 6]⟩ [3, 2]
        = Except.ok ⟨[3, 2], [1, 2, 3, 4, 5, 6]⟩
      ∧ reshapeForward ⟨[3, 2], [1, 2, 3, 4, 5, 6]⟩ [2, 3]
        = Except.ok ⟨[2, 3], [1, 2, 3, 4, 5, 6]⟩
      ∧ ∃ k, intProd [2, 3] = (intProd [3] * intProd ([] : List Int)) * k
          ∧ reshapeForward ⟨[2, 3], [1, 2, 3, 4, 5, 6]⟩ ([3] ++ -1 :: [])
            = Except.ok ⟨[3] ++ k :: [], [1, 2, 3, 4, 5, 6]⟩ :=
  ⟨(reshape_contract.1 ⟨[2, 3], [1, 2, 3, 4, 5, 6]⟩ [3, 2]
      (by decide) (by decide) (by decide)).1,
    (reshape_contract.1 ⟨[2, 3], [1, 2, 3, 4, 5, 6]⟩ [3, 2]
      (by decide) (by decide) (by decide)).2,
    reshape_contract.2.2 ⟨[2, 3], [1, 2, 3, 4, 5, 6]⟩ [3] []
      (by decide) (by decide) (by decide)⟩

/-! ## reduce_op host-side shape computation (ops_gpu.py lines 128-137)

```python
if axis is None:
  osize = [1]*len(inp.shape)
else:
  osize = np.array(inp.shape)
  osize[list(axis)] = 1
ret = buffer_new(ctx, osize)
if axis is None:
  ret.shape = (1,)
```

NumPy fancy-index assignment accepts indices in `[-n, n)` (negative
indices count from the end) and raises an `IndexError` otherwise — and it
does so before `buffer_new` runs and before the kernel is dispatched. -/

/-- NumPy index wrap-around: a negative index counts from the end. -/
def npWrapIndex (n : Nat) (a : Int) : Nat :=
  (if 0 ≤ a then a else a + n).toNat

/-- `osize[list(axis)] = 1` with NumPy bounds checking. -/
def npSetOnes : List Nat → List Int → Except String (List Nat)
  | osize, [] => Except.ok osize
  | osize, a :: rest =>
    if -(osize.length : Int) ≤ a ∧ a < (osize.length : Int) then
      npSetOnes (osize.set (npWrapIndex osize.length a) 1) rest
    else
      Except.error "IndexError: index out of bounds"

/-- Host control flow of `reduce_op`: compute `osize` (raising on a bad
axis), then allocate, then dispatch; full reduce (`axis=None`) returns
shape `(1,)`. -/
def reduceOpTrace (shape : List Nat) (axis : Option (List Int)) :
    List Event × Except String (List Nat) :=
  match axis with
  | none => ([Event.alloc (List.replicate shape.length 1), Event.dispatch "reduce"],
             Except.ok [1])
  | some ax =>
    match npSetOnes shape ax with
    | Except.error e => ([], Except.error e)
    | Except.ok osize => ([Event.alloc osize, Event.dispatch "reduce"], Except.ok osize)

theorem npSetOnes_ok (n : Nat) :
    ∀ (axis : List Int) (osize : List Nat), osize.length = n →
    (∀ a ∈ axis, -(n : Int) ≤ a ∧ a < (n : Int)) →
    ∃ os, npSetOnes osize axis = Except.ok os := by
  intro axis
  induction axis with
  | nil => exact fun osize _ _ => ⟨osize, rfl⟩
  | cons a rest ih =>
    intro osize hlen hval
    have ha := hval a (by simp)
    rw [npSetOnes, if_pos (by rw [hlen]; exact ha)]
    exact ih _ (by rw [List.length_set, hlen])
      fun b hb => hval b (List.mem_cons_of_mem _ hb)

theorem npSetOnes_err (n : Nat) :
    ∀ (axis : List Int) (osize : List Nat), osize.length = n →
    (∃ a ∈ axis, a < -(n : Int) ∨ (n : Int) ≤ a) →
    ∃ e, npSetOnes osize axis = Except.error e := by
  intro axis
  induction axis with
  | nil =>
    rintro osize _ ⟨a, ha, _⟩
    simp at ha
  | cons a rest ih =>
    rintro osize hlen ⟨b, hb, hbad⟩
    by_cases hcur : -(osize.length : Int) ≤ a ∧ a < (osize.length : Int)
    · rw [npSetOnes, if_pos hcur]
      rcases List.mem_cons.mp hb with h | h
      · subst h
        rw [hlen] at hcur
        omega
      · exact ih _ (by rw [List.length_set, hlen]) ⟨b, h, hbad⟩
    · rw [npSetOnes, if_neg hcur]
      exact ⟨_, rfl⟩

/-- C8 counterexample: for input shape `(2,3)` the axis `-1` is outside
the claimed valid range `0 ≤ axis < rank`, yet `reduce_op` does not fail:
NumPy wraps the negative index, so the reduction succeeds with output
size `(2,1)`. -/
theorem reduce_axis_claim_counterexample :
    reduceOpTrace [2, 3] (some [-1])
      = ([Event.alloc [2, 1], Event.dispatch "reduce"], Except.ok [2, 1]) := by
  rfl

/-- C8 (amended): every supplied reduction axis must satisfy
`-rank ≤ axis < rank` (NumPy semantics: negative axes count from the end);
any axis outside that range raises an index error on the host before any
output buffer is allocated or kernel dispatched (empty event trace), and
when all axes are in range the reduction proceeds (allocate, dispatch). -/
theorem reduce_op_axis_validation (shape : List Nat) (axis : List Int) :
    ((∃ a ∈ axis, a < -(shape.length : Int) ∨ (shape.length : Int) ≤ a) →
      ∃ e, reduceOpTrace shape (some axis) = ([], Except.error e))
    ∧ ((∀ a ∈ axis, -(shape.length : Int) ≤ a ∧ a < (shape.length : Int)) →
      ∃ osize, reduceOpTrace shape (some axis)
        = ([Event.alloc osize, Event.dispatch "reduce"], Except.ok osize)) := by
  constructor
  · intro hbad
    obtain ⟨e, he⟩ := npSetOnes_err shape.length axis shape rfl hbad
    exact ⟨e, by rw [reduceOpTrace, he]⟩
  · intro hval
    obtain ⟨os, hos⟩ := npSetOnes_ok shape.length axis shape rfl hval
    exact ⟨os, by rw [reduceOpTrace, hos]⟩

theorem reduce_op_axis_validation_witness :
    (∃ e, reduceOpTrace [2, 3] (some [5]) = ([], Except.error e))
      ∧ (∃ osize, reduceOpTrace [2, 3] (some [-1])
          = ([Event.alloc osize, Event.dispatch "reduce"], Except.ok osize)) :=
  ⟨(reduce_op_axis_validation [2, 3] [5]).1 ⟨5, by decide, by decide⟩,
   (reduce_op_axis_validation [2, 3] [-1]).2 (by decide)⟩

/-! ## clbuild kernel cache (ops_gpu.py lines 18-20)

```python
@functools.lru_cache()
def clbuild(cl_ctx, name, prg):
  return cl.Program(cl_ctx, prg).build().__getattr__(name)
```

`functools.lru_cache()` with no arguments is an LRU cache with
`maxsize=128`: a hit moves the key to the most-recently-used position and
does not recompile; a miss compiles and inserts, evicting the
least-recently-used entry when the cache is full.  The key is the full
argument tuple `(cl_ctx, name, prg)`, modelled as an opaque key type `κ`;
compilation is a pure function `compile : κ → ν`. -/

/-- One `clbuild` call against the cache (entries most-recently-used
first).  Returns the handle, the new cache state, and whether a
compilation was triggered. -/
def lruRequest {κ ν : Type} [DecidableEq κ] (compile : κ → ν) (cap : Nat)
    (st : List (κ × ν)) (k : κ) : ν × List (κ × ν) × Bool :=
  match st.find? (fun p => decide (p.1 = k)) with
  | some p => (p.2, (k, p.2) :: st.filter (fun q => decide (q.1 ≠ k)), false)
  | none => (compile k, ((k, compile k) :: st).take cap, true)

/-- A sequence of `clbuild` calls; the log records, per request, its key,
the returned handle, and whether it compiled. -/
def lruRunLog {κ ν : Type} [DecidableEq κ] (compile : κ → ν) (cap : Nat) :
    List κ → List (κ × ν) → List (κ × ν × Bool) × List (κ × ν)
  | [], st => ([], st)
  | k :: ks, st =>
    let r := lruRequest compile cap st k
    let rest := lruRunLog compile cap ks r.2.1
    ((k, r.1, r.2.2) :: rest.1, rest.2)

/-- Cache invariant: every entry holds its key's compile result, and no
key occurs twice (at most one backing program per key at any time). -/
def lruInv {κ ν : Type} (compile : κ → ν) (st : List (κ × ν)) : Prop :=
  (∀ p ∈ st, p.2 = compile p.1) ∧ (st.map Prod.fst).Nodup

theorem lruRequest_inv {κ ν : Type} [DecidableEq κ] (compile : κ → ν) (cap : Nat)
    (st : List (κ × ν)) (k : κ) (hinv : lruInv compile st) :
    (lruRequest compile cap st k).1 = compile k
      ∧ lruInv compile (lruRequest compile cap st k).2.1 := by
  obtain ⟨hval, hnodup⟩ := hinv
  rw [lruRequest]
  cases hfind : st.find? (fun p => decide (p.1 = k)) with
  | some p =>
    have hmem : p ∈ st := List.mem_of_find?_eq_some hfind
    have hkey : p.1 = k := by
      have := List.find?_some hfind
      simpa using this
    have hv : p.2 = compile k := by rw [hval p hmem, hkey]
    refine ⟨hv, fun q hq => ?_, ?_⟩
    · rcases List.mem_cons.mp hq with h | h
      · rw [h]
        exact hv
      · exact hval q (List.mem_filter.mp h).1
    · rw [List.map_cons]
      refine List.Nodup.cons ?_ (hnodup.sublist (List.Sublist.map _ (List.filter_sublist _)))
      intro hk
      obtain ⟨q, hq, hqk⟩ := List.mem_map.mp hk
      have := (List.mem_filter.mp hq).2
      simp only [decide_eq_true_eq] at this
      exact this hqk
  | none =>
    have hnone : ∀ q ∈ st, q.1 ≠ k := by
      intro q hq
      have := List.find?_eq_none.mp hfind q hq
      simpa using this
    refine ⟨rfl, fun q hq => ?_, ?_⟩
    · have hq' : q ∈ (k, compile k) :: st := List.mem_of_mem_take hq
      rcases List.mem_cons.mp hq' with h | h
      · rw [h]
      · exact hval q h
    · rw [List.map_take]
      refine List.Nodup.sublist (List.take_sublist _ _) ?_
      rw [List.map_cons]
      refine List.Nodup.cons ?_ hnodup
      intro hk
      obtain ⟨q, hq, hqk⟩ := List.mem_map.mp hk
      exact hnone q hq hqk

theorem lruRunLog_inv {κ ν : Type} [DecidableEq κ] (compile : κ → ν) (cap : Nat) :
    ∀ (reqs : List κ) (st : List (κ × ν)), lruInv compile st →
    (∀ e ∈ (lruRunLog compile cap reqs st).1, e.2.1 = compile e.1)
      ∧ lruInv compile (lruRunLog compile cap reqs st).2 := by
  intro reqs
  induction reqs with
  | nil => exact fun st h => ⟨by simp [lruRunLog], h⟩
  | cons k ks ih =>
    intro st hinv
    obtain ⟨hv, hinv'⟩ := lruRequest_inv compile cap st k hinv
    obtain ⟨hlog, hfin⟩ := ih _ hinv'
    refine ⟨fun e he => ?_, hfin⟩
    rcases List.mem_cons.mp he with h | h
    · rw [h]
      exact hv
    · exact hlog e h

theorem lruRunLog_append_fst {κ ν : Type} [DecidableEq κ] (compile : κ → ν) (cap : Nat) :
    ∀ (a b : List κ) (st : List (κ × ν)),
    (lruRunLog compile cap (a ++ b) st).1
      = (lruRunLog compile cap a st).1
          ++ (lruRunLog compile cap b (lruRunLog compile cap a st).2).1 := by
  intro a
  induction a with
  | nil => intro b st; simp [lruRunLog]
  | cons k ks ih =>
    intro b st
    simp only [List.cons_append, lruRunLog, List.append_eq, ih]

/-- After any request for `k` (hit or miss, capacity ≥ 1), `k` sits at the
most-recently-used position. -/
theorem lruRequest_front {κ ν : Type} [DecidableEq κ] (compile : κ → ν) (cap : Nat)
    (st : List (κ × ν)) (k : κ) :
    ∃ v rest, (lruRequest compile (cap + 1) st k).2.1 = (k, v) :: rest := by
  rw [lruRequest]
  cases hfind : st.find? (fun p => decide (p.1 = k)) with
  | some p => exact ⟨p.2, _, rfl⟩
  | none => exact ⟨compile k, _, by rw [List.take_succ_cons]⟩

/-- A request whose key is at the most-recently-used position is a cache
hit: it returns the stored handle and does not compile. -/
theorem lruRequest_hit_front {κ ν : Type} [DecidableEq κ] (compile : κ → ν) (cap : Nat)
    (k : κ) (v : ν) (rest : List (κ × ν)) :
    lruRequest compile cap ((k, v) :: rest) k
      = (v, (k, v) :: ((k, v) :: rest).filter (fun q => decide (q.1 ≠ k)), false) := by
  rw [lruRequest, List.find?_cons_of_pos _ (by simp)]

set_option maxRecDepth 10000 in
/-- C4 counterexample: with the default `lru_cache` capacity of 128, the
request sequence 0,1,...,128,0 (129 distinct keys, then key 0 again)
compiles key 0 twice — the 129th distinct key evicts key 0, so the
repeated request re-triggers compilation, contradicting "compilation
happens on the first request only / at most one backing compiled program
per key for the process lifetime". -/
theorem clbuild_claim_counterexample :
    (((lruRunLog (fun k : Nat => k) 128 (List.range 129 ++ [0]) []).1.filter
        (fun e => e.1 == 0 && e.2.2)).length) = 2 := by
  decide

/-- C4 (amended): every `clbuild` request returns the handle obtained by
(deterministic) compilation of its key — so two requests with the same
key always return handles with identical behavior; the cache never holds
two entries for one key; and a repeated request that follows a request
for the same key with no eviction in between (here: immediately) is
served from the cache without re-compiling.  Over the process lifetime,
however, a key may be compiled more than once after eviction. -/
theorem clbuild_cache_amended {κ ν : Type} [DecidableEq κ] (compile : κ → ν) :
    (∀ reqs : List κ, ∀ e ∈ (lruRunLog compile 128 reqs []).1, e.2.1 = compile e.1)
      ∧ (∀ reqs : List κ,
          (((lruRunLog compile 128 reqs []).2.map Prod.fst).Nodup))
      ∧ (∀ (reqs : List κ) (k : κ),
          ((lruRunLog compile 128 (reqs ++ [k, k]) []).1.getLast?).map (fun e => e.2.2)
            = some false) := by
  have hinv0 : lruInv compile ([] : List (κ × ν)) := ⟨by simp, by simp⟩
  refine ⟨fun reqs => (lruRunLog_inv compile 128 reqs [] hinv0).1,
    fun reqs => (lruRunLog_inv compile 128 reqs [] hinv0).2.2, ?_⟩
  intro reqs k
  rw [lruRunLog_append_fst]
  obtain ⟨v, rest, hfront⟩ :=
    lruRequest_front compile 127 (lruRunLog compile 128 reqs []).2 k
  have h2 : (lruRunLog compile 128 [k, k] (lruRunLog compile 128 reqs []).2).1
      = [(k, (lruRequest compile 128 (lruRunLog compile 128 reqs []).2 k).1,
          (lruRequest compile 128 (lruRunLog compile 128 reqs []).2 k).2.2),
         (k, v, false)] := by
    simp only [lruRunLog, hfront, lruRequest_hit_front]
  rw [h2, List.getLast?_append_of_ne_nil _ (by simp)]
  rfl

theorem clbuild_cache_amended_witness :
    (∀ e ∈ (lruRunLog (fun k : Nat => k + 1) 128 [0, 1, 0] []).1, e.2.1 = e.1 + 1)
      ∧ (((lruRunLog (fun k : Nat => k + 1) 128 [0, 1, 0] []).2.map Prod.fst).Nodup)
      ∧ ((lruRunLog (fun k : Nat => k + 1) 128 ([1] ++ [0, 0]) []).1.getLast?).map
          (fun e => e.2.2) = some false :=
  ⟨fun e he => (clbuild_cache_amended (fun k : Nat => k + 1)).1 [0, 1, 0] e he,
   (clbuild_cache_amended (fun k : Nat => k + 1)).2.1 [0, 1, 0],
   (clbuild_cache_amended (fun k : Nat => k + 1)).2.2 [1] 0⟩

/-! ## reduce kernel index arithmetic (ops_gpu.py lines 140-170)

```c
for (int x = 0; x < sz; x++) {
  int idx = 0;
  int tprod = prod;
  int tsz = sz;
  for (int dim = 0; dim < n_dims; dim++) {
    idx *= shape_x[dim];
    if (shape_x[dim] == shape_ret[dim]) { tprod /= shape_x[dim]; idx += (gid / tprod) % shape_x[dim]; }
    else                                { tsz /= shape_x[dim];   idx += (x / tsz) % shape_x[dim]; }
  }
  float a = a_g[idx]; out += a;   // combine "out += a"
}
res_g[gid] = out;                 // finalize "out"
```

dispatched with `sz = prod(inp.shape)//prod(osize)` and `prod = prod(osize)`. -/

/-- The per-dimension index loop of the `reduce` kernel, over the zipped
`(shape_x[dim], shape_ret[dim])` list, threading `tprod`, `tsz` and the
accumulator `idx`. -/
def reduceIdxGo : List (Nat × Nat) → Nat → Nat → Nat → Nat → Nat → Nat
  | [], _, _, _, _, idx => idx
  | (sx, sr) :: dims, tprod, tsz, gid, x, idx =>
    if sx = sr then
      reduceIdxGo dims (tprod / sx) tsz gid x (idx * sx + gid / (tprod / sx) % sx)
    else
      reduceIdxGo dims tprod (tsz / sx) gid x (idx * sx + x / (tsz / sx) % sx)

/-- Flat input index read by the `reduce` kernel for output index `gid` and
inner-loop counter `x`. -/
def reduceIdx (shapeX shapeRet : List Nat) (prod sz gid x : Nat) : Nat :=
  reduceIdxGo (List.zip shapeX shapeRet) prod sz gid x 0

/-- One output cell of the `reduce` kernel instantiated with combine
`out += a` and identity finalize `out` (the instantiation used by
`unbroadcast` and `Sum`). -/
def reduceSumCell (a : Nat → Int) (shapeX shapeRet : List Nat) (gid : Nat) : Int :=
  ∑ x ∈ Finset.range (listProd shapeX / listProd shapeRet),
    a (reduceIdx shapeX shapeRet (listProd shapeRet)
        (listProd shapeX / listProd shapeRet) gid x)

/-- `unbroadcast` (lines 172-174): reduce over
`[i for i in range(len(in_sh)) if in_sh[i]==1 and out.shape[i]>1]`, or a
full reduce when `in_sh == (1,)` — as the `osize` each case hands to
`reduce_op`. -/
def unbroadcastOsize (outShape inSh : List Nat) : List Nat :=
  if inSh = [1] then List.replicate outShape.length 1
  else List.zipWith (fun i s => if i = 1 ∧ 1 < s then 1 else s) inSh outShape

/-- One output cell of `unbroadcast(out, in_sh)`. -/
def unbroadcastCell (grad : Nat → Int) (outShape inSh : List Nat) (gid : Nat) : Int :=
  reduceSumCell grad outShape (unbroadcastOsize outShape inSh) gid

/-- Sum-reduction of a tensor over flagged axes, as the spec words it:
walking the dimensions most-significant first, a non-reduced (`false`)
dimension consumes the next output index component, a reduced (`true`)
dimension is summed over in full (summing combine, identity finalize). -/
def sumReduceSpec (g : List Nat → Int) : List (Nat × Bool) → List Nat → Int
  | [], _ => g []
  | (_, false) :: dims, K =>
    sumReduceSpec (fun J => g (K.headD 0 :: J)) dims K.tail
  | (s, true) :: dims, K =>
    ∑ d ∈ Finset.range s, sumReduceSpec (fun J => g (d :: J)) dims K.tail

/-- Product of the input sizes of the reduced (`shape_x ≠ shape_ret`)
dimensions: the number of input elements folded into one output cell. -/
def szRed (dims : List (Nat × Nat)) : Nat :=
  listProd ((dims.filter fun p => decide (p.1 ≠ p.2)).map Prod.fst)

theorem szRed_pos {dims : List (Nat × Nat)} (h : ∀ p ∈ dims, 0 < p.1) :
    0 < szRed dims := by
  refine listProd_pos fun d hd => ?_
  obtain ⟨p, hp, hpd⟩ := List.mem_map.mp hd
  exact hpd ▸ h p (List.mem_of_mem_filter hp)

theorem szRed_cons_kept {sx : Nat} (dims : List (Nat × Nat)) :
    szRed ((sx, sx) :: dims) = szRed dims := by
  simp [szRed, List.filter]

theorem szRed_cons_red {sx sr : Nat} (h : sx ≠ sr) (dims : List (Nat × Nat)) :
    szRed ((sx, sr) :: dims) = sx * szRed dims := by
  simp [szRed, List.filter, h, listProd]

/-- Splitting a sum over `range (a * b)` into an outer sum over the
quotient and an inner sum over the remainder. -/
theorem sum_range_mul_split {M : Type} [AddCommMonoid M] (f : Nat → M) (a b : Nat) :
    ∑ x ∈ Finset.range (a * b), f x
      = ∑ d ∈ Finset.range a, ∑ x ∈ Finset.range b, f (d * b + x) := by
  induction a with
  | zero => simp
  | succ n ih =>
    rw [Nat.succ_mul, Finset.sum_range_add, ih, Finset.sum_range_succ]

/-- The inner-loop index only depends on `x` modulo the number of reduced
elements that remain. -/
theorem reduceIdxGo_mod_x :
    ∀ (dims : List (Nat × Nat)) (tp gid idx d x : Nat),
    (∀ p ∈ dims, 0 < p.1) → (∀ p ∈ dims, p.2 = p.1 ∨ p.2 = 1) →
    x < szRed dims →
    reduceIdxGo dims tp (szRed dims) gid (d * szRed dims + x) idx
      = reduceIdxGo dims tp (szRed dims) gid x idx := by
  intro dims
  induction dims with
  | nil => intro tp gid idx d x _ _ _; rfl
  | cons p rest ih =>
    obtain ⟨sx, sr⟩ := p
    intro tp gid idx d x hpos hkind hx
    have hsx : 0 < sx := hpos (sx, sr) (by simp)
    have hpos' : ∀ q ∈ rest, 0 < q.1 := fun q hq => hpos q (List.mem_cons_of_mem _ hq)
    have hkind' : ∀ q ∈ rest, q.2 = q.1 ∨ q.2 = 1 :=
      fun q hq => hkind q (List.mem_cons_of_mem _ hq)
    by_cases hk : sx = sr
    · subst hk
      rw [szRed_cons_kept] at hx ⊢
      simp only [reduceIdxGo, if_pos rfl]
      exact ih (tp / sx) gid _ d x hpos' hkind' hx
    · rw [szRed_cons_red hk] at hx ⊢
      have hS : 0 < szRed rest := szRed_pos hpos'
      have hdiv : sx * szRed rest / sx = szRed rest := Nat.mul_div_cancel_left _ hsx
      simp only [reduceIdxGo, if_neg hk, hdiv]
      have hdig : (d * (sx * szRed rest) + x) / szRed rest % sx = x / szRed rest % sx := by
        rw [show d * (sx * szRed rest) + x = x + d * sx * szRed rest by ring,
          Nat.add_mul_div_right _ _ hS, Nat.add_mul_mod_self_right]
      rw [hdig]
      have hxm : x % szRed rest < szRed rest := Nat.mod_lt _ hS
      have e1 : d * (sx * szRed rest) + x
          = (d * sx + x / szRed rest) * szRed rest + x % szRed rest := by
        conv_lhs => rw [← Nat.div_add_mod x (szRed rest)]
        ring
      have hR : reduceIdxGo rest tp (szRed rest) gid
            (x / szRed rest * szRed rest + x % szRed rest) (idx * sx + x / szRed rest % sx)
          = reduceIdxGo rest tp (szRed rest) gid x (idx * sx + x / szRed rest % sx) :=
        congrArg (fun t => reduceIdxGo rest tp (szRed rest) gid t
          (idx * sx + x / szRed rest % sx)) (Nat.div_add_mod' x (szRed rest))
      rw [e1, ih tp gid (idx * sx + x / szRed rest % sx) (d * sx + x / szRed rest)
          (x % szRed rest) hpos' hkind' hxm]
      exact ((ih tp gid (idx * sx + x / szRed rest % sx) (x / szRed rest)
        (x % szRed rest) hpos' hkind' hxm).symm).trans hR

/-- The reduce kernel's `out += a` loop over all `sz` inner indices
computes, per output index, the spec's sum-reduction over the reduced
(`shape_x[dim] ≠ shape_ret[dim]`) dimensions. -/
theorem reduceIdxGo_sum_eq_spec (g : Nat → Int) :
    ∀ (dims : List (Nat × Nat)) (gid idx : Nat),
    (∀ p ∈ dims, 0 < p.1) →
    (∀ p ∈ dims, p.2 = p.1 ∨ p.2 = 1) →
    ∑ x ∈ Finset.range (szRed dims),
        g (reduceIdxGo dims (listProd (dims.map Prod.snd)) (szRed dims) gid x idx)
      = sumReduceSpec (fun J => g (flattenAcc idx (dims.map Prod.fst) J))
          (dims.map fun p => (p.1, decide (p.1 ≠ p.2)))
          (digitsMS (dims.map Prod.snd) gid) := by
  intro dims
  induction dims with
  | nil =>
    intro gid idx _ _
    simp [szRed, listProd, sumReduceSpec, digitsMS, flattenAcc, reduceIdxGo]
  | cons p rest ih =>
    obtain ⟨sx, sr⟩ := p
    intro gid idx hpos hkind
    have hsx : 0 < sx := hpos (sx, sr) (by simp)
    have hpos' : ∀ q ∈ rest, 0 < q.1 := fun q hq => hpos q (List.mem_cons_of_mem _ hq)
    have hkind' : ∀ q ∈ rest, q.2 = q.1 ∨ q.2 = 1 :=
      fun q hq => hkind q (List.mem_cons_of_mem _ hq)
    by_cases hk : sx = sr
    · subst hk
      rw [szRed_cons_kept]
      have hdiv : sx * listProd (rest.map Prod.snd) / sx = listProd (rest.map Prod.snd) :=
        Nat.mul_div_cancel_left _ hsx
      have hdf : (decide (sx ≠ sx)) = false := by simp
      simp only [List.map_cons, listProd, digitsMS, hdf, reduceIdxGo, eq_self_iff_true,
        if_true, hdiv]
      rw [ih gid _ hpos' hkind']
      simp only [sumReduceSpec, List.headD, List.tail_cons, flattenAcc]
    · have hsr1 : sr = 1 := by
        rcases hkind (sx, sr) (by simp) with h | h
        · exact absurd h.symm hk
        · exact h
      subst hsr1
      rw [szRed_cons_red hk]
      have hS : 0 < szRed rest := szRed_pos hpos'
      have hdiv : sx * szRed rest / sx = szRed rest := Nat.mul_div_cancel_left _ hsx
      have hdt : (decide (sx ≠ 1)) = true := by simp [hk]
      simp only [List.map_cons, listProd, digitsMS, hdt, Nat.mod_one, one_mul,
        reduceIdxGo, hk, if_false, ite_false, hdiv]
      rw [sum_range_mul_split]
      simp only [sumReduceSpec, List.headD, List.tail_cons]
      refine Finset.sum_congr rfl fun d hd => ?_
      have hdlt : d < sx := Finset.mem_range.mp hd
      have hinner : ∀ x' ∈ Finset.range (szRed rest),
          g (reduceIdxGo rest (listProd (rest.map Prod.snd)) (szRed rest) gid
              (d * szRed rest + x')
              (idx * sx + (d * szRed rest + x') / szRed rest % sx))
            = g (reduceIdxGo rest (listProd (rest.map Prod.snd)) (szRed rest) gid x'
                (idx * sx + d)) := by
        intro x' hx'
        have hx'lt : x' < szRed rest := Finset.mem_range.mp hx'
        have hdig : (d * szRed rest + x') / szRed rest % sx = d := by
          rw [Nat.add_comm, Nat.add_mul_div_right _ _ hS, Nat.div_eq_of_lt hx'lt,
            Nat.zero_add, Nat.mod_eq_of_lt hdlt]
        rw [hdig, reduceIdxGo_mod_x rest _ gid _ d x' hpos' hkind' hx'lt]
      rw [Finset.sum_congr rfl hinner, ih gid (idx * sx + d) hpos' hkind']
      simp only [flattenAcc]

/-- `unbroadcast`'s two cases (`in_sh == (1,)` full reduce vs. explicit
axis list) produce the same `osize` whenever the ranks agree and the
gradient's dimensions are positive. -/
theorem unbroadcastOsize_eq_zipWith (outShape inSh : List Nat)
    (hlen : inSh.length = outShape.length) (hpos : ∀ d ∈ outShape, 0 < d) :
    unbroadcastOsize outShape inSh
      = List.zipWith (fun i s => if i = 1 ∧ 1 < s then 1 else s) inSh outShape := by
  rw [unbroadcastOsize]
  by_cases h1 : inSh = [1]
  · rw [if_pos h1, h1]
    subst h1
    match outShape, hlen with
    | [s], _ =>
      have hs : 0 < s := hpos s (by simp)
      by_cases hlt : 1 < s
      · simp [hlt, List.replicate]
      · have : s = 1 := by omega
        simp [this, List.replicate]
  · rw [if_neg h1]

theorem unbroadcast_dims_kind : ∀ (outShape inSh : List Nat),
    ∀ p ∈ List.zip outShape
        (List.zipWith (fun i s => if i = 1 ∧ 1 < s then 1 else s) inSh outShape),
    p.2 = p.1 ∨ p.2 = 1 := by
  intro outShape
  induction outShape with
  | nil => intro inSh p hp; simp at hp
  | cons s rest ih =>
    intro inSh p hp
    cases inSh with
    | nil => simp at hp
    | cons i irest =>
      rw [List.zipWith_cons_cons, List.zip_cons_cons, List.mem_cons] at hp
      rcases hp with h | h
      · rw [h]
        by_cases hc : i = 1 ∧ 1 < s
        · right
          simp [hc]
        · left
          simp [hc]
      · exact ih irest p h

theorem unbroadcast_flags_eq : ∀ (outShape inSh : List Nat), (∀ d ∈ outShape, 0 < d) →
    (List.zip outShape
        (List.zipWith (fun i s => if i = 1 ∧ 1 < s then 1 else s) inSh outShape)).map
        (fun p => (p.1, decide (p.1 ≠ p.2)))
      = List.zipWith (fun s i => (s, decide (i = 1 ∧ 1 < s))) outShape inSh := by
  intro outShape
  induction outShape with
  | nil => intro inSh _; simp
  | cons s rest ih =>
    intro inSh hpos
    cases inSh with
    | nil => simp
    | cons i irest =>
      have hs : 0 < s := hpos s (by simp)
      rw [List.zipWith_cons_cons, List.zip_cons_cons, List.map_cons,
        ih irest fun d hd => hpos d (List.mem_cons_of_mem _ hd), List.zipWith_cons_cons]
      congr 1
      by_cases hc : i = 1 ∧ 1 < s
      · have : s ≠ 1 := by omega
        simp [hc, this]
      · simp [hc]

/-- The input size factors as (output size) × (reduced size) when every
output dimension is either kept or collapsed to 1. -/
theorem listProd_fst_eq (dims : List (Nat × Nat))
    (hkind : ∀ p ∈ dims, p.2 = p.1 ∨ p.2 = 1) :
    listProd (dims.map Prod.fst) = listProd (dims.map Prod.snd) * szRed dims := by
  induction dims with
  | nil => simp [listProd, szRed]
  | cons p rest ih =>
    obtain ⟨sx, sr⟩ := p
    have ih' := ih fun q hq => hkind q (List.mem_cons_of_mem _ hq)
    by_cases hk : sx = sr
    · subst hk
      rw [List.map_cons, List.map_cons, szRed_cons_kept]
      simp only [listProd]
      rw [ih']
      ring
    · have hsr1 : sr = 1 := by
        rcases hkind (sx, sr) (by simp) with h | h
        · exact absurd h.symm hk
        · exact h
      subst hsr1
      rw [List.map_cons, List.map_cons, szRed_cons_red hk]
      simp only [listProd]
      rw [ih']
      ring

/-- C5: for every gradient buffer and original shape of the same rank
(positive gradient dimensions), every output cell of
`unbroadcast(grad, in_sh)` equals the sum-reduction of the gradient over
exactly the axes i with `in_sh[i] == 1` and `grad.shape[i] > 1` (summing
combine, identity finalize); in particular for original shape (3,1)
broadcast to (3,4), the unbroadcast of a gradient of ones(3,4) is
[[4],[4],[4]]. -/
theorem unbroadcast_sums_expanded_axes :
    (∀ (grad : Nat → Int) (outShape inSh : List Nat) (gid : Nat),
      inSh.length = outShape.length → (∀ d ∈ outShape, 0 < d) →
      unbroadcastCell grad outShape inSh gid
        = sumReduceSpec (fun J => grad (flattenMS outShape J))
            (List.zipWith (fun s i => (s, decide (i = 1 ∧ 1 < s))) outShape inSh)
            (digitsMS (unbroadcastOsize outShape inSh) gid))
    ∧ unbroadcastCell (fun _ => (1 : Int)) [3, 4] [3, 1] 0 = 4
    ∧ unbroadcastCell (fun _ => (1 : Int)) [3, 4] [3, 1] 1 = 4
    ∧ unbroadcastCell (fun _ => (1 : Int)) [3, 4] [3, 1] 2 = 4 := by
  refine ⟨?_, by decide, by decide, by decide⟩
  intro grad outShape inSh gid hlen hpos
  have hos := unbroadcastOsize_eq_zipWith outShape inSh hlen hpos
  set W := List.zipWith (fun i s => if i = 1 ∧ 1 < s then 1 else s) inSh outShape with hW
  have hWlen : W.length = outShape.length := by
    rw [hW, List.length_zipWith, hlen, Nat.min_self]
  have hfst : (List.zip outShape W).map Prod.fst = outShape :=
    List.map_fst_zip _ _ (le_of_eq hWlen.symm)
  have hsnd : (List.zip outShape W).map Prod.snd = W :=
    List.map_snd_zip _ _ (le_of_eq hWlen)
  have hp1 : ∀ p ∈ List.zip outShape W, 0 < p.1 :=
    fun p hp => hpos p.1 (List.of_mem_zip hp).1
  have hk : ∀ p ∈ List.zip outShape W, p.2 = p.1 ∨ p.2 = 1 :=
    unbroadcast_dims_kind outShape inSh
  have hWpos : 0 < listProd W := by
    refine listProd_pos fun d hd => ?_
    rw [← hsnd] at hd
    obtain ⟨p, hp, hpd⟩ := List.mem_map.mp hd
    rcases hk p hp with h | h
    · exact hpd ▸ h ▸ hp1 p hp
    · rw [← hpd, h]
      exact Nat.one_pos
  have hprodeq : listProd outShape = listProd W * szRed (List.zip outShape W) := by
    have := listProd_fst_eq (List.zip outShape W) hk
    rw [hfst, hsnd] at this
    exact this
  have hdiv : listProd outShape / listProd W = szRed (List.zip outShape W) := by
    rw [hprodeq, Nat.mul_div_cancel_left _ hWpos]
  have H := reduceIdxGo_sum_eq_spec grad (List.zip outShape W) gid 0 hp1 hk
  rw [hfst, hsnd] at H
  simp only [unbroadcastCell, reduceSumCell, reduceIdx, hos, ← hW, hdiv]
  rw [H, unbroadcast_flags_eq outShape inSh hpos]
  rfl

theorem unbroadcast_sums_expanded_axes_witness :
    ([3, 1] : List Nat).length = ([3, 4] : List Nat).length
      ∧ (∀ d ∈ [3, 4], 0 < d)
      ∧ unbroadcastCell (fun n => (n : Int)) [3, 4] [3, 1] 1
        = sumReduceSpec (fun J => ((flattenMS [3, 4] J : Nat) : Int))
            (List.zipWith (fun s i => (s, decide (i = 1 ∧ 1 < s))) [3, 4] [3, 1])
            (digitsMS (unbroadcastOsize [3, 4] [3, 1]) 1) :=
  ⟨rfl, by decide,
    unbroadcast_sums_expanded_axes.1 (fun n => (n : Int)) [3, 4] [3, 1] 1 rfl (by decide)⟩

/-! ## subsample / supersample kernels and MaxPool2D (ops_gpu.py 27-56, 58-81, 407-425)

The pooling kernels run one thread per output element, indexed by
`gid = (gid.x, gid.y, gid.z)` with flat offset
`oid = gid.x + osize.x*(gid.y + osize.y*gid.z)`.  `MaxPool2D.forward` runs
`subsample_op` twice with `stride = kernel_size`: once recording the
winning window offset `maxidx = j*ksz.x + i` (strict `>`, first maximum
wins, initial `maxval = -FLT_MAX`), once recording the max value.
`MaxPool2D.backward` runs `supersample_op` over the original shape with
`result_op = (maxidx == kernidx) * input[iid]` where
`kernidx = (gid.x%ksz.x) + ksz.x*(gid.y%ksz.y)` and `maxidx` is read from
the saved index buffer at `iid = (gid.x/ksz.x) + isize.x*((gid.y/ksz.y) +
isize.y*gid.z)`; cells whose window is out of range keep the
`buffer_zeros` zero-fill. -/

/-- Flat offset `x + X*(y + Y*z)` used by the pooling kernels. -/
def encode3 (X Y z y x : Nat) : Nat := x + X * (y + Y * z)

/-- The nested `for j / for i` window loop of the `subsample` kernel. -/
def subsampleLoop {α : Type} (step : α → Nat → Nat → α) (init : α) (ky kx : Nat) : α :=
  (List.range ky).foldl (fun a j => (List.range kx).foldl (fun b i => step b j i) a) init

/-- The index-recording pass of `MaxPool2D.forward`
(`if (input[iid]>maxval) { maxval = input[iid]; maxidx = j * ksz.x + i; }`);
the running max is `Option Int` with `none` standing for `-FLT_MAX`. -/
def maxpoolIdxCell (input : Nat → Int) (Xin Yin kx ky : Nat) (gz gy gx : Nat) : Nat :=
  (subsampleLoop
    (fun st j i =>
      if gx * kx + i < Xin ∧ gy * ky + j < Yin then
        let v := input (encode3 Xin Yin gz (gy * ky + j) (gx * kx + i))
        match st.1 with
        | none => (some v, j * kx + i)
        | some m => if m < v then (some v, j * kx + i) else st
      else st)
    ((none, 0) : Option Int × Nat) ky kx).2

/-- The value pass of `MaxPool2D.forward`
(`maxval = max(maxval, input[iid])`). -/
def maxpoolValCell (input : Nat → Int) (Xin Yin kx ky : Nat) (gz gy gx : Nat) : Option Int :=
  subsampleLoop
    (fun st j i =>
      if gx * kx + i < Xin ∧ gy * ky + j < Yin then
        let v := input (encode3 Xin Yin gz (gy * ky + j) (gx * kx + i))
        match st with
        | none => some v
        | some m => some (max m v)
      else st)
    (none : Option Int) ky kx

/-- The recorded-offset buffer produced by `MaxPool2D.forward`, as a flat
buffer over `oid` (row-major decode of `oid` into `(gid.z, gid.y, gid.x)`). -/
def maxpoolIdxBuf (input : Nat → Int) (Xin Yin kx ky : Nat) (n : Nat) : Nat :=
  maxpoolIdxCell input Xin Yin kx ky
    (n / (((Xin - kx) / kx + 1) * ((Yin - ky) / ky + 1)))
    (n / ((Xin - kx) / kx + 1) % ((Yin - ky) / ky + 1))
    (n % ((Xin - kx) / kx + 1))

/-- One output cell of the `supsample` kernel as instantiated by
`MaxPool2D.backward` (`(maxidx == kernidx) * input[iid]`, zero-filled
output outside the guard). -/
def maxpoolBackwardCell (grad : Nat → Int) (idxs : Nat → Nat) (Xg Yg kx ky : Nat)
    (gz gy gx : Nat) : Int :=
  if gx / kx < Xg ∧ gy / ky < Yg then
    (if idxs (encode3 Xg Yg gz (gy / ky) (gx / kx)) = gx % kx + kx * (gy % ky) then 1 else 0)
      * grad (encode3 Xg Yg gz (gy / ky) (gx / kx))
  else 0

/-- `MaxPool2D.backward` with the index buffer recorded by forward. -/
def maxpool2dBackward (input grad : Nat → Int) (Xin Yin kx ky : Nat)
    (gz gy gx : Nat) : Int :=
  maxpoolBackwardCell grad (maxpoolIdxBuf input Xin Yin kx ky)
    ((Xin - kx) / kx + 1) ((Yin - ky) / ky + 1) kx ky gz gy gx

theorem encode3_decode (X Y z y x : Nat) (hx : x < X) (hy : y < Y) :
    encode3 X Y z y x % X = x
      ∧ encode3 X Y z y x / X % Y = y
      ∧ encode3 X Y z y x / (X * Y) = z := by
  have hX : 0 < X := Nat.pos_of_ne_zero (by omega)
  have hY : 0 < Y := Nat.pos_of_ne_zero (by omega)
  refine ⟨?_, ?_, ?_⟩
  · rw [encode3, Nat.add_mul_mod_self_left, Nat.mod_eq_of_lt hx]
  · rw [encode3, Nat.add_mul_div_left _ _ hX, Nat.div_eq_of_lt hx, Nat.zero_add,
      Nat.add_mul_mod_self_left, Nat.mod_eq_of_lt hy]
  · rw [encode3, show x + X * (y + Y * z) = x + X * y + X * Y * z by ring,
      Nat.add_mul_div_left _ _ (Nat.mul_pos hX hY), Nat.div_eq_of_lt, Nat.zero_add]
    calc x + X * y < X + X * y := by omega
    _ = X * (y + 1) := by ring
    _ ≤ X * Y := Nat.mul_le_mul_left X hy

/-- C6: `MaxPool2D.backward` routes each `grad_output` element only to the
input cell whose window offset equals the argmax offset recorded by
forward, and writes zero to every other cell of the window (and to cells
outside every window); concretely, for input [[1,5],[3,2]] with kernel
(2,2) and stride (2,2), forward output is [5] with recorded offset 1, and
backward with grad_output=[1] yields input-gradient [[0,1],[0,0]]. -/
theorem maxpool_backward_routes_to_argmax :
    (∀ (input grad : Nat → Int) (Xin Yin kx ky gz oy ox j i : Nat),
      0 < kx → 0 < ky →
      ox < (Xin - kx) / kx + 1 → oy < (Yin - ky) / ky + 1 → i < kx → j < ky →
      maxpool2dBackward input grad Xin Yin kx ky gz (oy * ky + j) (ox * kx + i)
        = if maxpoolIdxCell input Xin Yin kx ky gz oy ox = j * kx + i
            then grad (encode3 ((Xin - kx) / kx + 1) ((Yin - ky) / ky + 1) gz oy ox)
            else 0)
    ∧ (∀ (input grad : Nat → Int) (Xin Yin kx ky gz gy gx : Nat),
      (Xin - kx) / kx + 1 ≤ gx / kx ∨ (Yin - ky) / ky + 1 ≤ gy / ky →
      maxpool2dBackward input grad Xin Yin kx ky gz gy gx = 0)
    ∧ maxpoolValCell (fun n => ([1, 5, 3, 2] : List Int).getD n 0) 2 2 2 2 0 0 0 = some 5
    ∧ maxpoolIdxCell (fun n => ([1, 5, 3, 2] : List Int).getD n 0) 2 2 2 2 0 0 0 = 1
    ∧ maxpool2dBackward (fun n => ([1, 5, 3, 2] : List Int).getD n 0)
        (fun n => ([1] : List Int).getD n 0) 2 2 2 2 0 0 0 = 0
    ∧ maxpool2dBackward (fun n => ([1, 5, 3, 2] : List Int).getD n 0)
        (fun n => ([1] : List Int).getD n 0) 2 2 2 2 0 0 1 = 1
    ∧ maxpool2dBackward (fun n => ([1, 5, 3, 2] : List Int).getD n 0)
        (fun n => ([1] : List Int).getD n 0) 2 2 2 2 0 1 0 = 0
    ∧ maxpool2dBackward (fun n => ([1, 5, 3, 2] : List Int).getD n 0)
        (fun n => ([1] : List Int).getD n 0) 2 2 2 2 0 1 1 = 0 := by
  refine ⟨?_, ?_, by decide, by decide, by decide, by decide, by decide, by decide⟩
  · intro input grad Xin Yin kx ky gz oy ox j i hkx hky hox hoy hi hj
    have hgxd : (ox * kx + i) / kx = ox := by
      rw [Nat.add_comm, Nat.add_mul_div_right _ _ hkx, Nat.div_eq_of_lt hi, Nat.zero_add]
    have hgxm : (ox * kx + i) % kx = i := by
      rw [Nat.add_comm, Nat.add_mul_mod_self_right, Nat.mod_eq_of_lt hi]
    have hgyd : (oy * ky + j) / ky = oy := by
      rw [Nat.add_comm, Nat.add_mul_div_right _ _ hky, Nat.div_eq_of_lt hj, Nat.zero_add]
    have hgym : (oy * ky + j) % ky = j := by
      rw [Nat.add_comm, Nat.add_mul_mod_self_right, Nat.mod_eq_of_lt hj]
    obtain ⟨d1, d2, d3⟩ :=
      encode3_decode ((Xin - kx) / kx + 1) ((Yin - ky) / ky + 1) gz oy ox hox hoy
    simp only [maxpool2dBackward, maxpoolBackwardCell, hgxd, hgxm, hgyd, hgym,
      maxpoolIdxBuf, d1, d2, d3]
    rw [if_pos ⟨hox, hoy⟩, show i + kx * j = j * kx + i by ring]
    by_cases hc : maxpoolIdxCell input Xin Yin kx ky gz oy ox = j * kx + i
    · rw [if_pos hc, if_pos hc, one_mul]
    · rw [if_neg hc, if_neg hc, zero_mul]
  · intro input grad Xin Yin kx ky gz gy gx hout
    rw [maxpool2dBackward, maxpoolBackwardCell, if_neg]
    omega

theorem maxpool_backward_routes_to_argmax_witness :
    maxpool2dBackward (fun n => ([1, 5, 3, 2] : List Int).getD n 0)
        (fun n => ([1] : List Int).getD n 0) 2 2 2 2 0 (0 * 2 + 0) (0 * 2 + 1)
      = if maxpoolIdxCell (fun n => ([1, 5, 3, 2] : List Int).getD n 0) 2 2 2 2 0 0 0
            = 0 * 2 + 1
          then (fun n => ([1] : List Int).getD n 0)
            (encode3 ((2 - 2) / 2 + 1) ((2 - 2) / 2 + 1) 0 0 0)
          else 0 :=
  maxpool_backward_routes_to_argmax.1 (fun n => ([1, 5, 3, 2] : List Int).getD n 0)
    (fun n => ([1] : List Int).getD n 0) 2 2 2 2 0 0 0 0 1
    (by decide) (by decide) (by decide) (by decide) (by decide) (by decide)

/-! ## Buffer allocation discipline of the forward dispatches

Every kernel-producing forward first computes its output shape, then
allocates a fresh buffer (`buffer_new` / `buffer_zeros`), then dispatches
a kernel that writes only that buffer; inputs are only ever read.
`Reshape.forward` is the exception: `GPUBuffer(shape, hostbuf=x)` reuses
`x`'s storage without allocating.  The store models device memory: a
buffer handle (`GPUBuffer.cl`) is an index into the list of buffer
contents, and allocation appends. -/

/-- Device memory: one entry of contents per allocated buffer. -/
structure Store where
  datas : List (Nat → Int)

/-- A tensor as the operation layer sees it: logical shape plus the
handle of its device buffer. -/
structure TensorBuf where
  shape : List Nat
  dataId : Nat

/-- Allocate an output buffer for a precomputed shape and dispatch a
kernel that fills exactly that buffer. -/
def allocDispatch (st : Store) (shape : List Nat) (f : Nat → Int) : TensorBuf × Store :=
  (⟨shape, st.datas.length⟩, ⟨st.datas ++ [f]⟩)

/-- Read a buffer's contents from device memory. -/
def readBuf (st : Store) (t : TensorBuf) : Nat → Int :=
  st.datas.getD t.dataId (fun _ => 0)

/-- The frame property of one dispatch: the output handle is fresh (not
any previously allocated buffer), exactly one buffer was added, and the
contents of every pre-existing buffer — in particular every input — are
unchanged. -/
def freshFrame (st : Store) (b : TensorBuf) (st' : Store) : Prop :=
  b.dataId = st.datas.length ∧ st'.datas.length = st.datas.length + 1
    ∧ ∀ i < st.datas.length, st'.datas.getD i (fun _ => 0) = st.datas.getD i (fun _ => 0)

theorem allocDispatch_frame (st : Store) (shape : List Nat) (f : Nat → Int) :
    freshFrame st (allocDispatch st shape f).1 (allocDispatch st shape f).2
      ∧ (allocDispatch st shape f).1.shape = shape := by
  refine ⟨⟨rfl, by simp [allocDispatch], fun i hi => ?_⟩, rfl⟩
  simp only [allocDispatch]
  exact List.getD_append _ _ _ _ hi

/-- `binary_op` (lines 83-115): shape check, fresh output, binop kernel
(fast path on equal shapes, general index-mapping path otherwise). -/
def binaryOpH (code : Int → Int → Int) (st : Store) (x y : TensorBuf) :
    Except String (TensorBuf × Store) :=
  match binaryOpShape x.shape y.shape with
  | Except.error e => Except.error e
  | Except.ok shapeRet =>
    Except.ok (allocDispatch st shapeRet fun gid =>
      if x.shape = y.shape then
        binopFastCell code (readBuf st x) (readBuf st y) gid
      else
        binopGeneralCell code (readBuf st x) (readBuf st y)
          (padTrailingOnes (max x.shape.length y.shape.length) x.shape)
          (padTrailingOnes (max x.shape.length y.shape.length) y.shape)
          shapeRet gid)

/-- `unary_op` (lines 117-126): fresh output of the input's shape. -/
def unaryOpH (code : Int → Int) (st : Store) (x : TensorBuf) : TensorBuf × Store :=
  allocDispatch st x.shape fun gid => code (readBuf st x gid)

/-- `reduce_op` (lines 128-170) with the `out += a` / `out` instantiation;
`axis=None` allocates the all-ones `osize` and then sets the result shape
to `(1,)`. -/
def reduceOpH (st : Store) (x : TensorBuf) (axis : Option (List Int)) :
    Except String (TensorBuf × Store) :=
  match axis with
  | none =>
    let r := allocDispatch st (List.replicate x.shape.length 1) fun gid =>
      reduceSumCell (readBuf st x) x.shape (List.replicate x.shape.length 1) gid
    Except.ok (⟨[1], r.1.dataId⟩, r.2)
  | some ax =>
    match npSetOnes x.shape ax with
    | Except.error e => Except.error e
    | Except.ok osize =>
      Except.ok (allocDispatch st osize fun gid =>
        reduceSumCell (readBuf st x) x.shape osize gid)

/-- One output cell of the `matmul` kernel as dispatched by `Dot.forward`
(`is0 = msize, is1 = 1, ws0 = 1, ws1 = osize`). -/
def matmulCell (input weight : Nat → Int) (msize osize X Y : Nat) : Int :=
  ∑ x ∈ Finset.range msize, input (X * msize + x) * weight (Y + x * osize)

/-- `Dot.forward` (lines 251-282): inner-dimension assert, fresh
`(isize, osize)` output, matmul kernel. -/
def dotForwardH (st : Store) (x w : TensorBuf) : Except String (TensorBuf × Store) :=
  if x.shape.getD 1 0 = w.shape.getD 0 0 then
    Except.ok (allocDispatch st [x.shape.getD 0 0, w.shape.getD 1 0] fun n =>
      matmulCell (readBuf st x) (readBuf st w) (x.shape.getD 1 0) (w.shape.getD 1 0)
        (n / w.shape.getD 1 0) (n % w.shape.getD 1 0))
  else
    Except.error "AssertionError"

/-- The zero-padded output of the `pad2d` kernel as a flat function: the
kernel runs one thread per input cell, scattering `input[iptr]` to
`output[optr]`; all other output cells keep the `buffer_zeros` fill. -/
def pad2dOut (input : Nat → Int) (iy ix oy ox py px : Nat) (n : Nat) : Int :=
  let BC := n / (oy * ox)
  let yo := n / ox % oy
  let xo := n % ox
  if py ≤ yo ∧ yo < py + iy ∧ px ≤ xo ∧ xo < px + ix then
    input (BC * iy * ix + (yo - py) * ix + (xo - px))
  else 0

/-- `Pad2D.forward` (lines 308-333). -/
def pad2dForwardH (st : Store) (x : TensorBuf) (padding : List Nat) : TensorBuf × Store :=
  let bs := x.shape.getD 0 0
  let cin := x.shape.getD 1 0
  let iy := x.shape.getD 2 0
  let ix := x.shape.getD 3 0
  let oy := iy + padding.getD 2 0 + padding.getD 3 0
  let ox := ix + padding.getD 0 0 + padding.getD 1 0
  allocDispatch st [bs, cin, oy, ox] fun n =>
    pad2dOut (readBuf st x) iy ix oy ox (padding.getD 2 0) (padding.getD 0 0) n

/-- One output cell of the `conv` kernel (lines 464-490). -/
def conv2dCell (input weight : Nat → Int)
    (H W groups rcout cin oy ox iy ix ys xs : Nat) (gid0 Y X : Nat) : Int :=
  let B := gid0 / (groups * rcout)
  let g := gid0 / rcout % groups
  let c := gid0 % rcout
  ∑ ci ∈ Finset.range cin, ∑ y ∈ Finset.range H, ∑ x ∈ Finset.range W,
    input (B * groups * cin * iy * ix + g * cin * iy * ix + ci * iy * ix
        + (Y * ys + y) * ix + (X * xs + x))
      * weight (g * rcout * cin * H * W + c * cin * H * W + ci * H * W + y * W + x)

/-- `Conv2D.forward` (lines 446-497): asserts on channel counts, fresh
`(bs, cout, oy, ox)` output, conv kernel. -/
def conv2dForwardH (st : Store) (x w : TensorBuf) (ys xs groups : Nat) :
    Except String (TensorBuf × Store) :=
  let cout := w.shape.getD 0 0
  let cin := w.shape.getD 1 0
  let H := w.shape.getD 2 0
  let W := w.shape.getD 3 0
  let bs := x.shape.getD 0 0
  let cin' := x.shape.getD 1 0
  let iy := x.shape.getD 2 0
  let ix := x.shape.getD 3 0
  let oy := (iy - (H - ys)) / ys
  let ox := (ix - (W - xs)) / xs
  if cin * groups = cin' ∧ cout % groups = 0 then
    Except.ok (allocDispatch st [bs, cout, oy, ox] fun n =>
      conv2dCell (readBuf st x) (readBuf st w) H W groups (cout / groups) cin oy ox iy ix ys xs
        (n / (oy * ox)) (n / ox % oy) (n % ox))
  else
    Except.error "AssertionError"

/-- `AvgPool2D.forward`'s subsample cell
(`sumval += input[iid]`, `sumval / (ksz.x * ksz.y)`). -/
def avgpoolValCell (input : Nat → Int) (Xin Yin kx ky : Nat) (gz gy gx : Nat) : Int :=
  (subsampleLoop
    (fun s j i =>
      if gx * kx + i < Xin ∧ gy * ky + j < Yin then
        s + input (encode3 Xin Yin gz (gy * ky + j) (gx * kx + i))
      else s)
    (0 : Int) ky kx) / (kx * ky : Nat)

/-- `AvgPool2D.forward` (lines 392-398) via `subsample_op`. -/
def avgpool2dForwardH (st : Store) (x : TensorBuf) (kx ky : Nat) : TensorBuf × Store :=
  let N := x.shape.getD 0 0
  let C := x.shape.getD 1 0
  let Yin := x.shape.getD 2 0
  let Xin := x.shape.getD 3 0
  let Yout := (Yin - ky) / ky + 1
  let Xout := (Xin - kx) / kx + 1
  allocDispatch st [N, C, Yout, Xout] fun n =>
    avgpoolValCell (readBuf st x) Xin Yin kx ky
      (n / (Xout * Yout)) (n / Xout % Yout) (n % Xout)

/-- `MaxPool2D.forward` (lines 407-416): two `subsample_op` dispatches,
first the offset-recording pass, then the value pass. -/
def maxpool2dForwardH (st : Store) (x : TensorBuf) (kx ky : Nat) :
    TensorBuf × TensorBuf × Store :=
  let N := x.shape.getD 0 0
  let C := x.shape.getD 1 0
  let Yin := x.shape.getD 2 0
  let Xin := x.shape.getD 3 0
  let Yout := (Yin - ky) / ky + 1
  let Xout := (Xin - kx) / kx + 1
  let r1 := allocDispatch st [N, C, Yout, Xout] fun n =>
    (maxpoolIdxBuf (readBuf st x) Xin Yin kx ky n : Int)
  let r2 := allocDispatch r1.2 [N, C, Yout, Xout] fun n =>
    (maxpoolValCell (readBuf r1.2 x) Xin Yin kx ky
      (n / (Xout * Yout)) (n / Xout % Yout) (n % Xout)).getD 0
  (r1.1, r2.1, r2.2)

/-- `Reshape.forward` on the store: resolves the target shape and returns
a buffer that aliases the input's storage; nothing is allocated. -/
def reshapeForwardH (st : Store) (x : TensorBuf) (shape : List Int) :
    Except String (TensorBuf × Store) :=
  let resolved := shape.map fun s =>
    if s = -1 then Int.fdiv (-(intProd (x.shape.map Int.ofNat))) (intProd shape) else s
  if intProd (x.shape.map Int.ofNat) = intProd resolved then
    Except.ok (⟨resolved.map Int.toNat, x.dataId⟩, st)
  else
    Except.error "AssertionError"

/-- C9: every operation's forward dispatch leaves the contents of all
pre-existing buffers — in particular all inputs — unchanged and returns a
freshly allocated buffer, sized from the shape computed before dispatch
(`allocDispatch` attaches exactly the precomputed shape); the sole
exception is `Reshape.forward`, which allocates nothing and returns a
buffer aliasing the input's storage. -/
theorem forward_ops_frame :
    (∀ (st : Store) (shape : List Nat) (f : Nat → Int),
      (allocDispatch st shape f).1.shape = shape)
    ∧ (∀ (code : Int → Int → Int) (st : Store) (x y : TensorBuf) (r : TensorBuf × Store),
        binaryOpH code st x y = Except.ok r →
        freshFrame st r.1 r.2 ∧ binaryOpShape x.shape y.shape = Except.ok r.1.shape)
    ∧ (∀ (code : Int → Int) (st : Store) (x : TensorBuf),
        freshFrame st (unaryOpH code st x).1 (unaryOpH code st x).2)
    ∧ (∀ (st : Store) (x : TensorBuf) (axis : Option (List Int)) (r : TensorBuf × Store),
        reduceOpH st x axis = Except.ok r → freshFrame st r.1 r.2)
    ∧ (∀ (st : Store) (x w : TensorBuf) (r : TensorBuf × Store),
        dotForwardH st x w = Except.ok r → freshFrame st r.1 r.2)
    ∧ (∀ (st : Store) (x : TensorBuf) (padding : List Nat),
        freshFrame st (pad2dForwardH st x padding).1 (pad2dForwardH st x padding).2)
    ∧ (∀ (st : Store) (x w : TensorBuf) (ys xs groups : Nat) (r : TensorBuf × Store),
        conv2dForwardH st x w ys xs groups = Except.ok r → freshFrame st r.1 r.2)
    ∧ (∀ (st : Store) (x : TensorBuf) (kx ky : Nat),
        freshFrame st (avgpool2dForwardH st x kx ky).1 (avgpool2dForwardH st x kx ky).2)
    ∧ (∀ (st : Store) (x : TensorBuf) (kx ky : Nat),
        (maxpool2dForwardH st x kx ky).1.dataId = st.datas.length
          ∧ (maxpool2dForwardH st x kx ky).2.1.dataId = st.datas.length + 1
          ∧ (maxpool2dForwardH st x kx ky).2.2.datas.length = st.datas.length + 2
          ∧ ∀ i < st.datas.length,
              (maxpool2dForwardH st x kx ky).2.2.datas.getD i (fun _ => 0)
                = st.datas.getD i (fun _ => 0))
    ∧ (∀ (st : Store) (x : TensorBuf) (shape : List Int) (r : TensorBuf × Store),
        reshapeForwardH st x shape = Except.ok r →
        r.2 = st ∧ r.1.dataId = x.dataId) := by
  refine ⟨fun st shape f => rfl, ?_, ?_, ?_, ?_, ?_, ?_, ?_, ?_, ?_⟩
  · intro code st x y r hr
    rw [binaryOpH] at hr
    cases hs : binaryOpShape x.shape y.shape with
    | error e => rw [hs] at hr; exact absurd hr (by simp)
    | ok shapeRet =>
      rw [hs] at hr
      simp only [Except.ok.injEq] at hr
      subst hr
      exact ⟨(allocDispatch_frame st shapeRet _).1, rfl⟩
  · intro code st x
    exact (allocDispatch_frame st x.shape _).1
  · intro st x axis r hr
    cases axis with
    | none =>
      simp only [reduceOpH, Except.ok.injEq] at hr
      subst hr
      exact ⟨rfl, by simp [allocDispatch],
        fun i hi => List.getD_append _ _ _ _ hi⟩
    | some ax =>
      rw [reduceOpH] at hr
      cases hs : npSetOnes x.shape ax with
      | error e => rw [hs] at hr; exact absurd hr (by simp)
      | ok osize =>
        rw [hs] at hr
        simp only [Except.ok.injEq] at hr
        subst hr
        exact (allocDispatch_frame st osize _).1
  · intro st x w r hr
    rw [dotForwardH] at hr
    by_cases hc : x.shape.getD 1 0 = w.shape.getD 0 0
    · rw [if_pos hc] at hr
      simp only [Except.ok.injEq] at hr
      subst hr
      exact (allocDispatch_frame st _ _).1
    · rw [if_neg hc] at hr
      exact absurd hr (by simp)
  · intro st x padding
    exact (allocDispatch_frame st _ _).1
  · intro st x w ys xs groups r hr
    rw [conv2dForwardH] at hr
    by_cases hc : w.shape.getD 1 0 * groups = x.shape.getD 1 0
        ∧ w.shape.getD 0 0 % groups = 0
    · rw [if_pos hc] at hr
      simp only [Except.ok.injEq] at hr
      subst hr
      exact (allocDispatch_frame st _ _).1
    · rw [if_neg hc] at hr
      exact absurd hr (by simp)
  · intro st x kx ky
    exact (allocDispatch_frame st _ _).1
  · intro st x kx ky
    refine ⟨rfl, by simp [maxpool2dForwardH, allocDispatch],
      by simp [maxpool2dForwardH, allocDispatch], fun i hi => ?_⟩
    simp only [maxpool2dForwardH, allocDispatch]
    rw [List.append_assoc]
    exact List.getD_append _ _ _ _ hi
  · intro st x shape r hr
    rw [reshapeForwardH] at hr
    by_cases hc : intProd (x.shape.map Int.ofNat)
        = intProd (shape.map fun s =>
            if s = -1 then Int.fdiv (-(intProd (x.shape.map Int.ofNat))) (intProd shape) else s)
    · rw [if_pos hc] at hr
      simp only [Except.ok.injEq] at hr
      subst hr
      exact ⟨rfl, rfl⟩
    · rw [if_neg hc] at hr
      exact absurd hr (by simp)

theorem forward_ops_frame_witness :
    ∃ r, binaryOpH (fun a b => a + b) ⟨[]⟩ ⟨[2], 0⟩ ⟨[2], 0⟩ = Except.ok r
      ∧ freshFrame ⟨[]⟩ r.1 r.2
      ∧ binaryOpShape [2] [2] = Except.ok r.1.shape :=
  ⟨_, rfl, (forward_ops_frame.2.1 (fun a b => a + b) ⟨[]⟩ ⟨[2], 0⟩ ⟨[2], 0⟩ _ rfl).1,
    (forward_ops_frame.2.1 (fun a b => a + b) ⟨[]⟩ ⟨[2], 0⟩ ⟨[2], 0⟩ _ rfl).2⟩

end TinygradGPU
